import Mathlib

/-!
Verification development for the OrganizePictures repository.

This file gives a shallow embedding of the media reconciliation and
placement pipeline: the date-resolution chains of
`TruMedia.date_taken` and the legacy `OrganizePictures._get_date_taken`,
the tag-update filter `_update_tags`, the regenerate-and-retry cycle of
`TruImage._update_tags`, the content-hash procedure `_get_image_hash`,
the collision-retry placement `_get_new_fileinfo` together with the
per-file orchestration step of `OrganizePictures.run`, the cleanup loop,
and the recursive file discovery `_get_files`.

External collaborators (exiftool strptime-style parsing, PIL re-encoding,
md5, timezone conversion, XML attribute extraction) are taken as function
parameters; everything the repository itself computes is embedded as an
executable Lean definition translated from the Python source.
-/

namespace OrgPics

/-! ## Constants from `organize_pictures.utils` and `organize_pictures.__init__` -/

def imageExts : List String := [".jpg", ".jpeg", ".png", ".heic"]

def videoExts : List String := [".mp4", ".mpg", ".mov", ".m4v", ".mts", ".mkv"]

def imgConvertExts : List String := [".heic"]

def imgChangeExts : List String := [".jpeg"]

def vidConvertExts : List String := [".mpg", ".mov", ".m4v", ".mts", ".mkv"]

def preferredImageExt : String := ".jpg"

def preferredVideoExt : String := ".mp4"

def exifDateFields : List String := ["DateTimeOriginal", "CreateDate"]

def videoDateFields : List String :=
  ["QuickTime:CreateDate", "QuickTime:TrackCreateDate",
   "QuickTime:MediaCreateDate", "Matroska:CreationTime"]

/-- The keys of `utils.DATE_FORMATS` in dict insertion order.  The concrete
format strings are opaque to this model: `strptime` is an external routine and
is passed in as a function from a format tag and a raw string to an optional
parsed timestamp (absolute seconds). -/
inductive DateFmt
  | default | exif | m4 | filename | video | mkv | recorded | encoded
  deriving DecidableEq, Repr

/-- `DATE_FORMATS.values()` iteration order used by the inner format loop of
`TruMedia.date_taken`. -/
def dateFormatsOrder : List DateFmt :=
  [.default, .exif, .m4, .filename, .video, .mkv, .recorded, .encoded]

/-- Shape of an external strptime-style parser: format tag and value string to
optional timestamp in absolute seconds. -/
abbrev Strp := DateFmt → String → Option Nat

/-! ## Model of Python `int(...)` applied to a sidecar JSON value -/

/-- A primitive JSON value as found at `photoTakenTime.timestamp`. -/
inductive JsonPrim
  | str (s : String)
  | num (n : Int)
  deriving DecidableEq, Repr

/-- Python whitespace stripping of both ends of a character list. -/
def stripChars (cs : List Char) : List Char :=
  ((cs.dropWhile Char.isWhitespace).reverse.dropWhile Char.isWhitespace).reverse

/-- Value of a digit string. -/
def digitsVal (cs : List Char) : Nat :=
  cs.foldl (fun a c => a * 10 + (c.toNat - 48)) 0

/-- Python `int(s)` on a string: optional sign, then decimal digits; anything
else raises (modelled as `none`). -/
def parseIntStr (s : String) : Option Int :=
  match stripChars s.toList with
  | [] => none
  | c :: rest =>
    if c = '-' then
      if rest ≠ [] ∧ rest.all Char.isDigit then some (-(digitsVal rest : Int)) else none
    else if c = '+' then
      if rest ≠ [] ∧ rest.all Char.isDigit then some (digitsVal rest) else none
    else if (c :: rest).all Char.isDigit then some (digitsVal (c :: rest)) else none

/-- Python `int(v)` on the JSON value found at `photoTakenTime.timestamp`;
`none` models the raised exception (missing key, non-numeric string). -/
def pyInt : Option JsonPrim → Option Int
  | none => none
  | some (.num n) => some n
  | some (.str s) => parseIntStr s

/-! ## Sidecar JSON and metadata maps -/

/-- The part of a sidecar JSON object that `date_taken` consults.
`photoTakenTime = some t` models the key being present, with `t` the value of
its `timestamp` field (`none` when that inner key is missing). -/
structure Sidecar where
  photoTakenTime : Option (Option JsonPrim)
  deriving DecidableEq, Repr

/-- A tag-name to raw-string-value map as returned by
`ExifToolHelper.get_metadata`. -/
abbrev Metadata := List (String × String)

def mlookup (m : Metadata) (k : String) : Option String :=
  (m.find? (fun kv => kv.fst = k)).map (fun kv => kv.snd)

/-! ## `TruMedia.date_taken` (TruMedia.py lines 160-201) -/

/-- Inner format loop: try each format of `DATE_FORMATS.values()` in order on
the raw value; the first format that parses wins. -/
def firstFmtParse (strp : Strp) (v : String) : Option Nat :=
  dateFormatsOrder.foldl
    (fun acc f => match acc with | some d => some d | none => strp f v) none

/-- The metadata field loop of `TruMedia.date_taken`: for each field of
`self.date_fields` present in the metadata, parse its value with the format
loop; a successful parse overwrites `self._date_taken` (the loop has no outer
break, so the last field that parses wins; fields whose value fails every
format leave the previous value in place). -/
def scanDateFields (strp : Strp) (exif : Metadata) (fields : List String) : Option Nat :=
  fields.foldl
    (fun acc f =>
      match mlookup exif f with
      | none => acc
      | some v =>
        match firstFmtParse strp v with
        | none => acc
        | some d => some d)
    none

/-- Last-resort branch of `TruMedia.date_taken`: the vendor XML attribute
inside the `PNG:XMLcommagicmemoriesm4` tag.  `xmlCreation` models
`ET.fromstring(...).attrib.get("creation")` (with `none` for a parse failure
or a missing attribute, both swallowed by the surrounding except). -/
def m4Date (strp : Strp) (xmlCreation : String → Option String) (exif : Metadata) :
    Option Nat :=
  match mlookup exif "PNG:XMLcommagicmemoriesm4" with
  | none => none
  | some xml =>
    match xmlCreation xml with
    | none => none
    | some attr => strp .m4 attr

/-- `TruMedia.date_taken` resolution chain.  `fromTs` models
`datetime.fromtimestamp`.  First priority: the sidecar JSON
`photoTakenTime.timestamp` when `int(...)` succeeds (the raised exception on
an unparseable value is caught and falls through).  Second: the metadata date
fields.  Third: the m4 XML creation attribute.  Nothing else: an exhausted
chain yields `none` (only an error is logged). -/
def trumediaDateTaken (strp : Strp) (xmlCreation : String → Option String)
    (fromTs : Int → Nat) (sidecar : Option Sidecar) (exif : Metadata)
    (dateFields : List String) : Option Nat :=
  let jsonDate : Option Nat :=
    match sidecar with
    | none => none
    | some sc =>
      match sc.photoTakenTime with
      | none => none
      | some tsv => (pyInt tsv).map fromTs
  match jsonDate with
  | some d => some d
  | none =>
    match scanDateFields strp exif dateFields with
    | some d => some d
    | none => m4Date strp xmlCreation exif

/-- C2: for every asset whose sidecar JSON contains a
`photoTakenTime.timestamp` that parses as an integer, the resolved capture
date equals the datetime derived from that epoch value, regardless of any
conflicting metadata date fields; if the sidecar value is present but
unparseable, resolution falls through to the metadata date fields (and their
m4 fallback) instead of aborting. -/
theorem c2_sidecar_priority (strp : Strp) (xmlCreation : String → Option String)
    (fromTs : Int → Nat) (tsv : Option JsonPrim) (exif : Metadata)
    (dateFields : List String) :
    (∀ n : Int, pyInt tsv = some n →
      trumediaDateTaken strp xmlCreation fromTs (some ⟨some tsv⟩) exif dateFields
        = some (fromTs n)) ∧
    (pyInt tsv = none →
      trumediaDateTaken strp xmlCreation fromTs (some ⟨some tsv⟩) exif dateFields
        = trumediaDateTaken strp xmlCreation fromTs none exif dateFields) := by
  constructor
  · intro n hn
    simp [trumediaDateTaken, hn]
  · intro hn
    simp [trumediaDateTaken, hn]

/-- Witness for C2 at concrete inputs: a sidecar timestamp string
`1700000000` beats a conflicting metadata date field, and the unparseable
string `oops` falls through to metadata resolution. -/
theorem c2_sidecar_priority_witness :
    trumediaDateTaken (fun _ _ => none) (fun _ => none) Int.toNat
        (some ⟨some (some (.str "1700000000"))⟩)
        [("DateTimeOriginal", "2024-01-15 10:30:45")] exifDateFields
      = some 1700000000 ∧
    trumediaDateTaken (fun _ _ => none) (fun _ => none) Int.toNat
        (some ⟨some (some (.str "oops"))⟩)
        [("DateTimeOriginal", "2024-01-15 10:30:45")] exifDateFields
      = trumediaDateTaken (fun _ _ => none) (fun _ => none) Int.toNat none
        [("DateTimeOriginal", "2024-01-15 10:30:45")] exifDateFields := by
  refine ⟨?_, ?_⟩
  · have h := (c2_sidecar_priority (fun _ _ => none) (fun _ => none) Int.toNat
      (some (.str "1700000000"))
      [("DateTimeOriginal", "2024-01-15 10:30:45")] exifDateFields).1
      1700000000 (by decide)
    simpa using h
  · exact (c2_sidecar_priority (fun _ _ => none) (fun _ => none) Int.toNat
      (some (.str "oops"))
      [("DateTimeOriginal", "2024-01-15 10:30:45")] exifDateFields).2 (by decide)

/-! ## Legacy `OrganizePictures._get_date_taken` (__init__.py lines 294-356) -/

/-- The date-offset dictionary `{Y,M,D,h,m,s}`. -/
structure Offset where
  y : Nat
  mo : Nat
  d : Nat
  h : Nat
  mi : Nat
  s : Nat
  deriving DecidableEq, Repr

/-- `OrganizePictures.init_offset()`: all components zero. -/
def zeroOffset : Offset := ⟨0, 0, 0, 0, 0, 0⟩

/-- One `pymediainfo` track as consulted by the video branch. -/
structure OldTrack where
  isVideoOrGeneral : Bool
  encodedDate : Option String
  recordedDate : Option String
  deriving DecidableEq, Repr

/-- Video branch of `_get_date_taken` (lines 297-315): the first track of type
`Video` or `General` with an `encoded_date` is parsed with the single
`VIDEO_DATE_FORMATS` default format (same string as `DATE_FORMATS["encoded"]`)
and timezone-converted (`tzconv` models the pytz round trip); failing that,
`recorded_date` with the `recorded` format.  A parse failure here is uncaught
and propagates (`Except.error`). -/
def oldVideoScan (strp : Strp) (tzconv : Nat → String → Nat) :
    List OldTrack → Except Unit (Option Nat)
  | [] => .ok none
  | t :: ts =>
    if t.isVideoOrGeneral then
      match t.encodedDate with
      | some e =>
        match strp .encoded e with
        | none => .error ()
        | some dd => .ok (some (tzconv dd e))
      | none =>
        match t.recordedDate with
        | some r =>
          match strp .recorded r with
          | none => .error ()
          | some dd => .ok (some dd)
        | none => oldVideoScan strp tzconv ts
    else oldVideoScan strp tzconv ts

/-- Value of the first `EXIF_DATE_FIELDS` entry present in the metadata, with
the `EXIF:` prefix applied as in the source. -/
def firstExifFieldValue (exif : Metadata) : List String → Option String
  | [] => none
  | f :: fs =>
    match mlookup exif (String.append "EXIF:" f) with
    | some v => some v
    | none => firstExifFieldValue exif fs

/-- Image branch of `_get_date_taken` (lines 316-335).  The metadata is the
state after `_write_json_data_to_image` ran.  Only the single
`ENCODED_DATE_FORMAT` (`DATE_FORMATS["default"]`) is tried; a `strptime`
failure on the first present field raises, is caught by the surrounding
except, and leaves the date unresolved without ever reaching the m4 check. -/
def oldImageScan (strp : Strp) (xmlCreation : String → Option String)
    (exif : Metadata) : Option Nat :=
  match firstExifFieldValue exif exifDateFields with
  | some v => strp .default v
  | none => m4Date strp xmlCreation exif

/-- `OrganizePictures._get_date_taken`.  After the two media-kind branches, a
still-unresolved date is REPLACED BY THE FILE MODIFIED TIME (lines 337-340,
`mtimeDate` is the already-parsed `ctime`/`%c` round trip of `getmtime`), and
the optional offset is applied (`applyOff` models the component-wise
`datetime(...)` reconstruction).  The function can fail only by an uncaught
video-branch parse exception — never by having no date. -/
def getDateTakenOld (strp : Strp) (tzconv : Nat → String → Nat)
    (xmlCreation : String → Option String)
    (applyOff : Offset → Bool → Nat → Nat) (extLower : String)
    (tracks : List OldTrack) (exif : Metadata) (mtimeDate : Nat)
    (offset : Offset) (minus : Bool) : Except Unit Nat := do
  let d? ←
    if extLower ∈ videoExts then oldVideoScan strp tzconv tracks
    else if extLower ∈ imageExts then .ok (oldImageScan strp xmlCreation exif)
    else .ok none
  let dd := match d? with | some dd => dd | none => mtimeDate
  .ok (if offset = zeroOffset then dd else applyOff offset minus dd)

/-- C1 (code bug evaluation): with every external source exhausted — no
sidecar JSON, no metadata date field, no m4 attribute, no parseable value
anywhere — the legacy resolver `OrganizePictures._get_date_taken` does NOT
report failure: it returns the file-modified-time date (here 42), so the
asset is placed by `run`.  The newer `TruMedia.date_taken` conforms to the
claim and yields no date on the same exhausted inputs. -/
theorem c1_mtime_fallback_evaluation :
    getDateTakenOld (fun _ _ => none) (fun dd _ => dd) (fun _ => none)
        (fun _ _ dd => dd) ".jpg" [] [] 42 zeroOffset false = .ok 42 ∧
    trumediaDateTaken (fun _ _ => none) (fun _ => none) Int.toNat
        none [] videoDateFields = none := by
  constructor
  · rfl
  · rfl

/-! ## `TruImage._get_image_hash` (TruImage.py lines 296-310) -/

/-- An image file as the hashing procedure sees it: decoded pixel payload and
embedded metadata tags. -/
structure ImageFile where
  pixels : List Nat
  tags : List (String × String)
  deriving DecidableEq, Repr

/-- `_get_image_hash`: open the file, save it to a temp file, reopen, and md5
the raw `tobytes()` pixel buffer of the result.  `reencode` models the
PIL save/reopen round trip on the decoded pixel data, `md5` the digest; both
are external.  Embedded tags never enter the digest. -/
def imageContentHash (md5 : List Nat → Nat) (reencode : List Nat → List Nat)
    (f : ImageFile) : Nat :=
  md5 (reencode f.pixels)

/-- C6: the image content hash is independent of embedded metadata tag
values — rewriting the tag payload (for example adding a GPS tag) leaves the
hash unchanged — and, whenever the digest pipeline is injective, any change
to the pixel data changes the hash. -/
theorem c6_hash_metadata_independence (md5 : List Nat → Nat)
    (reencode : List Nat → List Nat) (f g : ImageFile) :
    (∀ tags2, imageContentHash md5 reencode ⟨f.pixels, tags2⟩
      = imageContentHash md5 reencode f) ∧
    (Function.Injective (fun p => md5 (reencode p)) → f.pixels ≠ g.pixels →
      imageContentHash md5 reencode f ≠ imageContentHash md5 reencode g) := by
  refine ⟨fun _ => rfl, fun hinj hne heq => hne ?_⟩
  exact hinj heq

/-- Witness for C6 at concrete inputs: with an injective digest (the
`Encodable` encoding of pixel lists) and identity re-encoding, a GPS tag
added to a one-pixel image leaves the hash unchanged while a pixel edit
changes it. -/
theorem c6_hash_metadata_independence_witness :
    imageContentHash Encodable.encode id ⟨[7], [("GPSLatitude", "40.0")]⟩
      = imageContentHash Encodable.encode id ⟨[7], []⟩ ∧
    imageContentHash Encodable.encode id ⟨[7], []⟩
      ≠ imageContentHash Encodable.encode id ⟨[8], []⟩ := by
  refine ⟨?_, ?_⟩
  · exact (c6_hash_metadata_independence Encodable.encode id ⟨[7], []⟩
      ⟨[8], []⟩).1 [("GPSLatitude", "40.0")]
  · exact (c6_hash_metadata_independence Encodable.encode id ⟨[7], []⟩
      ⟨[8], []⟩).2 (fun a b h => Encodable.encode_injective h) (by decide)

/-! ## `TruMedia._update_tags` / `TruImage._update_tags` filtering
(TruMedia.py lines 344-377, TruImage.py lines 312-337) -/

/-- A proposed or stored tag value: a string (as a list of character codes, so
that the ascii cleaning is explicit) or a number. -/
inductive TagVal
  | str (s : List Nat)
  | num (n : Int)
  deriving DecidableEq, Repr

/-- `value.encode("ascii", "ignore").decode("ascii")`: characters with code
128 or above are dropped; non-string values pass through. -/
def asciiClean : TagVal → TagVal
  | .str s => .str (s.filter (fun c => c < 128))
  | .num n => .num n

/-- Metadata as `_update_tags` compares against. -/
abbrev ExifData := List (String × TagVal)

def exifLookup (m : ExifData) (k : String) : Option TagVal :=
  (m.find? (fun kv => kv.fst = k)).map (fun kv => kv.snd)

/-- The tag set actually written by `_update_tags`: every proposed string
value is first ascii-cleaned in place, then any tag whose (cleaned) value
equals the current `EXIF:`-prefixed metadata value is deleted; the remaining
tags are written in one `set_tags` call, and no call happens when the list is
empty. -/
def tagsToWrite (exif : ExifData) (tags : List (String × TagVal)) :
    List (String × TagVal) :=
  (tags.map (fun ft => (ft.fst, asciiClean ft.snd))).filter
    (fun ft => decide (exifLookup exif (String.append "EXIF:" ft.fst) ≠ some ft.snd))

/-- C7 counterexample: a proposed tag whose value EQUALS the value already
present in the metadata is nevertheless not skipped when the value contains a
non-ascii character (code 200): the ascii cleaning drops the character before
the comparison, the cleaned value no longer matches, and a write is
performed.  This refutes the claim that every unchanged tag is skipped and
that no write happens when all proposed tags are unchanged. -/
theorem c7_counterexample :
    exifLookup [("EXIF:GPSLatitudeRef", TagVal.str [99, 200])] "EXIF:GPSLatitudeRef"
      = some (TagVal.str [99, 200]) ∧
    tagsToWrite [("EXIF:GPSLatitudeRef", TagVal.str [99, 200])]
        [("GPSLatitudeRef", TagVal.str [99, 200])]
      = [("GPSLatitudeRef", TagVal.str [99])] := by
  constructor
  · rfl
  · rfl

/-- C7 (amended): `_update_tags` compares the ASCII-CLEANED proposed value
against the current metadata value: every proposed tag whose cleaned value
equals the current value is skipped, when every proposed tag is unchanged
after cleaning no write is performed at all, and every tag that is written
differs from the current metadata value — so re-running the injection on an
already-tagged file with pure-ascii values performs no write. -/
theorem c7_amended_update_tags_skip (exif : ExifData)
    (tags : List (String × TagVal)) :
    ((∀ ft ∈ tags, exifLookup exif (String.append "EXIF:" ft.fst)
        = some (asciiClean ft.snd)) → tagsToWrite exif tags = []) ∧
    (∀ ft ∈ tagsToWrite exif tags,
      exifLookup exif (String.append "EXIF:" ft.fst) ≠ some ft.snd) := by
  constructor
  · intro hall
    rw [tagsToWrite, List.filter_eq_nil_iff]
    intro ft hft
    rcases List.mem_map.mp hft with ⟨orig, horig, rfl⟩
    simp [hall orig horig]
  · intro ft hft
    have := List.of_mem_filter hft
    simpa using this

/-- Witness for C7 (amended) at concrete inputs: a pure-ascii proposed tag
equal to the stored value leads to an empty write set. -/
theorem c7_amended_update_tags_skip_witness :
    tagsToWrite [("EXIF:DateTimeOriginal", TagVal.str [50, 48])]
      [("DateTimeOriginal", TagVal.str [50, 48])] = [] := by
  exact (c7_amended_update_tags_skip
    [("EXIF:DateTimeOriginal", TagVal.str [50, 48])]
    [("DateTimeOriginal", TagVal.str [50, 48])]).1 (by decide)

/-! ## `TruImage._update_tags` failure handling (TruImage.py lines 312-337)
together with `TruImage._regenerate` (lines 192-212) -/

/-- The regenerate-and-retry cycle of `TruImage._update_tags`.  Attempt `k`
of the exiftool write succeeds iff `wOk k`; when it raises, `_regenerate` is
attempted (success iff `rOk k`): on regeneration success the whole
`_update_tags` call is re-entered, on regeneration failure `self.valid` is
set to `False`.  The result is `(number of regenerations performed, final
validity)`; `none` models non-termination within the given recursion budget
(the source recursion has no depth guard). -/
def tagRetryLoop (wOk rOk : Nat → Bool) : Nat → Nat → Option (Nat × Bool)
  | _, 0 => none
  | k, fuel + 1 =>
    if wOk k then some (k, true)
    else if rOk k then tagRetryLoop wOk rOk (k + 1) fuel
    else some (k + 1, false)

/-- C8 counterexample: when the first two tag writes fail against a file that
`_regenerate` keeps successfully rewriting, the code performs TWO
regeneration-and-retry cycles and finishes with the asset still valid — there
is no single-retry cap and no invalid marking after a failed retry, refuting
the claim that exactly one regeneration occurs and that a second failure
marks the asset invalid. -/
theorem c8_counterexample :
    tagRetryLoop (fun k => decide (2 ≤ k)) (fun _ => true) 0 5
      = some (2, true) := by
  rfl

/-- C8 (amended): a failing tag write triggers a regeneration and, when the
regeneration succeeds, a retry — with no bound: for every `n` there is a
failure pattern producing exactly `n` regeneration cycles ending valid; the
asset is marked invalid exactly when a regeneration itself fails (after one
failed write, a failed regeneration ends the cycle invalid); and when every
write fails while regeneration keeps succeeding the recursion never
terminates (it exhausts any budget). -/
theorem c8_amended_regenerate_retry (n fuel : Nat) (hfuel : n < fuel) :
    tagRetryLoop (fun k => decide (n ≤ k)) (fun _ => true) 0 fuel
      = some (n, true) ∧
    tagRetryLoop (fun _ => false) (fun _ => false) 0 fuel = some (1, false) ∧
    tagRetryLoop (fun _ => false) (fun _ => true) 0 fuel = none := by
  have key : ∀ (m : Nat) (k fl : Nat), m < fl →
      tagRetryLoop (fun j => decide (k + m ≤ j)) (fun _ => true) k fl
        = some (k + m, true) := by
    intro m
    induction m with
    | zero =>
      intro k fl hfl
      match fl, hfl with
      | fl + 1, _ => simp [tagRetryLoop]
    | succ m ih =>
      intro k fl hfl
      match fl, hfl with
      | fl + 1, hfl =>
        have hm : m < fl := by omega
        have hstep := ih (k + 1) fl hm
        have harr : k + 1 + m = k + (m + 1) := by omega
        rw [harr] at hstep
        have hnot : ¬ (k + (m + 1) ≤ k) := by omega
        simp only [tagRetryLoop, decide_eq_true_eq, hnot, if_false]
        exact hstep
  refine ⟨?_, ?_, ?_⟩
  · have h := key n 0 fuel hfuel
    simpa using h
  · match fuel, hfuel with
    | fl + 1, _ => simp [tagRetryLoop]
  · clear hfuel
    have gen : ∀ (fl k : Nat),
        tagRetryLoop (fun _ => false) (fun _ => true) k fl = none := by
      intro fl
      induction fl with
      | zero => intro k; rfl
      | succ fl ih => intro k; simpa [tagRetryLoop] using ih (k + 1)
    exact gen fuel 0

/-- Witness for C8 (amended) at concrete inputs: three regeneration cycles
within a budget of five. -/
theorem c8_amended_regenerate_retry_witness :
    tagRetryLoop (fun k => decide (3 ≤ k)) (fun _ => true) 0 5
      = some (3, true) ∧
    tagRetryLoop (fun _ => false) (fun _ => false) 0 5 = some (1, false) ∧
    tagRetryLoop (fun _ => false) (fun _ => true) 0 5 = none := by
  exact c8_amended_regenerate_retry 3 5 (by decide)

/-! ## Placement model: `_get_new_fileinfo`, `_media_file_matches`, and the
per-file step of `run` (__init__.py lines 399-425, 445-492, 494-564) -/

/-- The byte-level and decoded-content identity of one media file.  `bytes`
stands for the raw file payload (`_md5` equality is modelled as equality of
this field — md5 is treated as injective), `pixels` for the decoded pixel
data hashed by `_get_image_hash`, and `comment` for the container comment
track consulted by the video branch of `_media_file_matches`. -/
structure Content where
  bytes : Nat
  pixels : Nat
  comment : Option String
  deriving DecidableEq, Repr

/-- A destination path as produced by `_get_new_fileinfo`: destination
directory (dest root plus the optional `{year}/{month}` part), the
second-precision encoded timestamp of the filename (the
`FILENAME_DATE_FORMAT` rendering is injective per second, so the timestamp
itself stands for the rendered name), and the final extension. -/
structure DestPath where
  dir : String
  sec : Nat
  ext : String
  deriving DecidableEq, Repr

/-- A filesystem path: either a source-tree file (by name) or a computed
destination path. -/
inductive MPath
  | src (name : String)
  | dst (p : DestPath)
  deriving DecidableEq, Repr

/-- The filesystem as a finite map from paths to contents. -/
abbrev Fs := List (MPath × Content)

/-- Content stored at a path (`os.path.exists` is `(fsGet fs p).isSome`). -/
def fsGet : Fs → MPath → Option Content
  | [], _ => none
  | e :: rest, p => if e.fst = p then some e.snd else fsGet rest p

/-- Remove every binding of a path. -/
def fsRemove : Fs → MPath → Fs
  | [], _ => []
  | e :: rest, p => if e.fst = p then fsRemove rest p else e :: fsRemove rest p

/-- Write a file: the path now holds exactly this content. -/
def fsPut (fs : Fs) (p : MPath) (c : Content) : Fs :=
  (p, c) :: fsRemove fs p

/-- Python `pat in s` substring test. -/
def strContains (s pat : String) : Bool :=
  s.toList.tails.any (fun t => pat.toList.isPrefixOf t)

/-- The destination extension of `_get_new_fileinfo['path']`: video-convert
extensions and `.jpeg` are replaced by the preferred extension; everything
else (including `.heic`, whose conversion target lives under the separate
`convert_path` key) keeps the lowercased source extension. -/
def pathExtOf (extLower : String) : String :=
  if extLower ∈ vidConvertExts then preferredVideoExt
  else if extLower ∈ imgChangeExts then preferredImageExt
  else extLower

/-- `_media_file_matches` for an existing destination file: the files match
when their raw md5 digests agree; otherwise, for a VIDEO source only, the
destination also "matches" when any of its tracks carries a comment
containing `Converted` (the marker written by `_convert_video`). -/
def mediaFileMatches (srcIsVideo : Bool) (srcC dstC : Content) : Bool :=
  if srcC.bytes = dstC.bytes then true
  else if srcIsVideo then
    match dstC.comment with
    | some cm => strContains cm ("Converted")
    | none => false
  else false

/-- The result of `_get_new_fileinfo` that the claims consult: destination
path, encoded date, and the duplicate flag. -/
structure NewFileInfo where
  path : DestPath
  dateEncoded : Nat
  duplicate : Bool
  deriving DecidableEq, Repr

/-- The destination path `_get_new_fileinfo` computes for capture second
`sec`: `dirOf sec` models the `{dest_dir}/{year}/{month}` rendering of the
date. -/
def mkDest (dirOf : Nat → String) (extLower : String) (sec : Nat) : DestPath :=
  ⟨dirOf sec, sec, pathExtOf extLower⟩

/-- `_get_new_fileinfo` collision loop: a free destination path is returned
as-is; an occupied one is compared with `_media_file_matches` — a match
returns the same path flagged duplicate, a mismatch increments the capture
date by exactly one second and re-runs the whole check.  `fuel` bounds the
recursion depth (the source recursion is unbounded); `none` models running
out of stack. -/
def getNewFileinfo (dirOf : Nat → String) (srcIsVideo : Bool) (srcC : Content)
    (extLower : String) (fs : Fs) : Nat → Nat → Option NewFileInfo
  | _, 0 => none
  | sec, fuel + 1 =>
    let p := mkDest dirOf extLower sec
    match fsGet fs (.dst p) with
    | none => some ⟨p, sec, false⟩
    | some c =>
      if mediaFileMatches srcIsVideo srcC c then some ⟨p, sec, true⟩
      else getNewFileinfo dirOf srcIsVideo srcC extLower fs (sec + 1) fuel

/-- Sequential placement of a burst of same-second assets: each asset runs
the collision loop from the shared capture second `d`; a non-duplicate
result copies the asset to the returned destination (the later
`_update_file_date` tag rewrite on the copy is not modelled).  Returns the
per-asset results and the final filesystem. -/
def placeBurst (dirOf : Nat → String) (srcIsVideo : Bool) (extLower : String)
    (d fuel : Nat) : List Content → Fs → List (Option NewFileInfo) × Fs
  | [], fs => ([], fs)
  | c :: cs, fs =>
    match getNewFileinfo dirOf srcIsVideo c extLower fs d fuel with
    | none =>
      let r := placeBurst dirOf srcIsVideo extLower d fuel cs fs
      (none :: r.fst, r.snd)
    | some info =>
      let fs2 := if info.duplicate then fs else fsPut fs (.dst info.path) c
      let r := placeBurst dirOf srcIsVideo extLower d fuel cs fs2
      (some info :: r.fst, r.snd)

/-- Run-statistics counters of `OrganizePictures.results`. -/
structure RunResults where
  moved : Nat
  duplicate : Nat
  failed : Nat
  deleted : Nat
  deriving DecidableEq, Repr

/-- Per-run state threaded through the processing loop of `run`. -/
structure RunState where
  fs : Fs
  db : List (MPath × Nat)
  res : RunResults
  cleanupFiles : List MPath
  deriving DecidableEq, Repr

/-- Content hash of `_get_image_hash`: digest of the re-encoded decoded pixel
data only (md5 injectivity idealised). -/
def imageHashOf (c : Content) : Nat := c.pixels

/-- `_check_db_for_image_path_hash`: query the hash store by content hash. -/
def dbHasHash (db : List (MPath × Nat)) (h : Nat) : Bool :=
  db.any (fun e => e.snd = h)

/-- One iteration of the loop of `run` for an image file with resolved
capture second `d` (the legacy resolver always yields a date).  A hash-store
hit skips the file (the `continue` also skips its cleanup block).  Otherwise
the collision loop runs; a duplicate-in-place result queues the source for
cleanup without copying; a non-duplicate result copies the file to the
destination (`copyOk` models `shutil.copyfile` succeeding), counts it moved,
queues the source for cleanup, and inserts the hash record — keyed by
`media_file`, the SOURCE path (line 537).  A failing copy only counts a
failure. -/
def processImageFile (dirOf : Nat → String) (fuel : Nat) (copyOk : Bool)
    (st : RunState) (srcName : String) (srcC : Content) (extLower : String)
    (d : Nat) : RunState :=
  if dbHasHash st.db (imageHashOf srcC) then st
  else
    match getNewFileinfo dirOf false srcC extLower st.fs d fuel with
    | none => st
    | some info =>
      if info.duplicate then
        { st with
          res := { st.res with duplicate := st.res.duplicate + 1 }
          cleanupFiles := st.cleanupFiles ++ [.src srcName] }
      else if copyOk then
        { fs := fsPut st.fs (.dst info.path) srcC
          db := st.db ++ [(.src srcName, imageHashOf srcC)]
          res := { st.res with moved := st.res.moved + 1 }
          cleanupFiles := st.cleanupFiles ++ [.src srcName] }
      else
        { st with res := { st.res with failed := st.res.failed + 1 } }

/-- The cleanup loop of `run` (lines 558-562): for each queued file the
deleted counter is incremented and then `os.remove` runs; a missing file
raises `FileNotFoundError`, which nothing catches — the error (with the
already-incremented counter) aborts the run.  The filesystem is the list of
existing paths. -/
def cleanupPhase : List MPath → List MPath → Nat →
    Except (MPath × Nat) (List MPath × Nat)
  | fs, [], n => .ok (fs, n)
  | fs, f :: rest, n =>
    if f ∈ fs then cleanupPhase (fs.erase f) rest (n + 1)
    else .error (f, n + 1)

/-! ### Filesystem map lemmas -/

theorem fsGet_fsRemove (fs : Fs) (p q : MPath) (h : q ≠ p) :
    fsGet (fsRemove fs p) q = fsGet fs q := by
  induction fs with
  | nil => rfl
  | cons e rest ih =>
    simp only [fsRemove, fsGet]
    by_cases hp : e.fst = p
    · rw [if_pos hp, ih]
      have hq : ¬ (e.fst = q) := fun hh => h (by rw [← hh, hp])
      rw [if_neg hq]
    · rw [if_neg hp]
      simp only [fsGet]
      by_cases hq : e.fst = q
      · rw [if_pos hq, if_pos hq]
      · rw [if_neg hq, if_neg hq, ih]

theorem fsGet_fsPut (fs : Fs) (p q : MPath) (c : Content) :
    fsGet (fsPut fs p c) q = if q = p then some c else fsGet fs q := by
  by_cases h : q = p
  · subst h
    simp [fsGet, fsPut]
  · have hne : ¬ (p = q) := fun hh => h hh.symm
    simp only [fsGet, fsPut, hne, if_neg h, if_false]
    exact fsGet_fsRemove fs p q h

/-! ### The collision probe and burst placement -/

/-- Occupancy of the destination slots from second `d` on: slot `d + i` holds
exactly the `i`-th content of `occ` (and is free for `i` past the end). -/
def FsOcc (dirOf : Nat → String) (extLower : String) (d : Nat) (fs : Fs)
    (occ : List Content) : Prop :=
  ∀ i : Nat, fsGet fs (.dst (mkDest dirOf extLower (d + i))) = occ[i]?

theorem mediaFileMatches_of_ne_bytes (srcC dstC : Content)
    (h : srcC.bytes ≠ dstC.bytes) : mediaFileMatches false srcC dstC = false := by
  simp [mediaFileMatches, h]

theorem probe_free_slot (dirOf : Nat → String) (extLower : String) (d : Nat)
    (fs : Fs) (occ : List Content) (c : Content)
    (hocc : FsOcc dirOf extLower d fs occ)
    (hdiff : ∀ o ∈ occ, o.bytes ≠ c.bytes) :
    ∀ fuel j, j ≤ occ.length → occ.length - j < fuel →
      getNewFileinfo dirOf false c extLower fs (d + j) fuel
        = some ⟨mkDest dirOf extLower (d + occ.length), d + occ.length, false⟩ := by
  intro fuel
  induction fuel with
  | zero => intro j _ hlt; omega
  | succ fuel ih =>
    intro j hj hlt
    by_cases hjk : j = occ.length
    · have hnone : fsGet fs (.dst (mkDest dirOf extLower (d + j))) = none := by
        rw [hocc j]
        exact List.getElem?_eq_none (by omega)
      rw [hjk] at hnone ⊢
      simp [getNewFileinfo, hnone]
    · have hjlt : j < occ.length := Nat.lt_of_le_of_ne hj hjk
      have hsome : fsGet fs (.dst (mkDest dirOf extLower (d + j)))
          = some (occ.get ⟨j, hjlt⟩) := by
        rw [hocc j]
        exact List.getElem?_eq_getElem hjlt
      have hmem : occ.get ⟨j, hjlt⟩ ∈ occ := List.getElem_mem hjlt
      have hbytes : c.bytes ≠ (occ.get ⟨j, hjlt⟩).bytes :=
        fun hh => (hdiff _ hmem) hh.symm
      have hmatch := mediaFileMatches_of_ne_bytes c (occ.get ⟨j, hjlt⟩) hbytes
      have hrec := ih (j + 1) hjlt (by omega)
      have harr : d + (j + 1) = d + j + 1 := by omega
      rw [harr] at hrec
      simp only [getNewFileinfo, hsome, hmatch, Bool.false_eq_true, if_false]
      exact hrec

theorem place_burst_occ (dirOf : Nat → String) (extLower : String) (d fuel : Nat) :
    ∀ (cs occ : List Content) (fs : Fs), FsOcc dirOf extLower d fs occ →
      cs.Pairwise (fun a b => a.bytes ≠ b.bytes) →
      (∀ c2 ∈ cs, ∀ o ∈ occ, o.bytes ≠ c2.bytes) →
      occ.length + cs.length ≤ fuel →
      (placeBurst dirOf false extLower d fuel cs fs).fst
        = (List.range cs.length).map
            (fun k => some ⟨mkDest dirOf extLower (d + occ.length + k),
              d + occ.length + k, false⟩) := by
  intro cs
  induction cs with
  | nil => intro occ fs _ _ _ _; simp [placeBurst]
  | cons c cs ih =>
    intro occ fs hocc hpw hcross hfuel
    have hdiff : ∀ o ∈ occ, o.bytes ≠ c.bytes :=
      fun o ho => hcross c (List.mem_cons_self c cs) o ho
    have hprobe := probe_free_slot dirOf extLower d fs occ c hocc hdiff fuel 0
      (Nat.zero_le _) (by simp only [List.length_cons] at hfuel; omega)
    rw [Nat.add_zero] at hprobe
    have hpw2 := List.pairwise_cons.mp hpw
    have hocc2 : FsOcc dirOf extLower d
        (fsPut fs (.dst (mkDest dirOf extLower (d + occ.length))) c)
        (occ ++ [c]) := by
      intro i
      rw [fsGet_fsPut]
      by_cases hik : i = occ.length
      · have h1 : (occ ++ [c])[i]? = some c := by
          rw [hik, List.getElem?_append_right (Nat.le_refl _)]
          simp
        rw [h1, if_pos (by rw [hik])]
      · have hne : MPath.dst (mkDest dirOf extLower (d + i))
            ≠ MPath.dst (mkDest dirOf extLower (d + occ.length)) := by
          intro hh
          simp only [MPath.dst.injEq, mkDest, DestPath.mk.injEq] at hh
          omega
        rw [if_neg hne, hocc i]
        by_cases hilt : i < occ.length
        · rw [List.getElem?_append_left hilt]
        · have hge : occ.length ≤ i := by omega
          rw [List.getElem?_append_right hge]
          rw [List.getElem?_eq_none (l := occ) hge]
          have h1 : 1 ≤ i - occ.length := by omega
          rw [List.getElem?_eq_none (l := [c]) (by simpa using h1)]
    have hcross2 : ∀ c2 ∈ cs, ∀ o ∈ occ ++ [c], o.bytes ≠ c2.bytes := by
      intro c2 hc2 o ho
      rcases List.mem_append.mp ho with hoin | hoc
      · exact hcross c2 (List.mem_cons_of_mem c hc2) o hoin
      · have hoe : o = c := by simpa using hoc
        rw [hoe]
        exact hpw2.1 c2 hc2
    have hlen : (occ ++ [c]).length = occ.length + 1 := by simp
    have hrec := ih (occ ++ [c])
      (fsPut fs (.dst (mkDest dirOf extLower (d + occ.length))) c)
      hocc2 hpw2.2 hcross2
      (by rw [hlen]; simp only [List.length_cons] at hfuel; omega)
    rw [hlen] at hrec
    simp only [placeBurst, hprobe, Bool.false_eq_true, if_false]
    simp only [List.length_cons]
    rw [List.range_succ_eq_map, List.map_cons, List.map_map]
    simp only [List.cons.injEq]
    constructor
    · rfl
    · rw [hrec]
      apply List.map_congr_left
      intro k _
      simp only [Function.comp_apply, Nat.succ_eq_add_one]
      rw [show d + (occ.length + 1) + k = d + occ.length + (k + 1) from by omega]

/-- C3 counterexample: a VIDEO asset whose candidate destination is occupied
by a file with DIFFERENT content is not always retried at `+1s`: when the
occupying file carries a comment containing `Converted` (exactly what
`_convert_video` writes when the first same-second video of a burst is
placed), `_media_file_matches` reports a match and the collision loop stops
with a duplicate-in-place at the same second — the second distinct asset
never receives its own destination filename. -/
theorem c3_counterexample :
    getNewFileinfo (fun _ => "d") true ⟨2, 2, none⟩ ".mp4"
        [(.dst ⟨"d", 100, ".mp4"⟩, ⟨1, 1, some ("Converted a to b")⟩)] 100 5
      = some ⟨⟨"d", 100, ".mp4"⟩, 100, true⟩ := by
  decide

/-- C3 (amended): for IMAGE assets the claim holds as stated — for every
burst of `N` pairwise-content-distinct assets resolved to the same capture
second `d` and placed sequentially into an empty destination, the collision
loop assigns the `N` distinct destinations encoded at seconds
`d, d+1, …, d+N-1` (exactly one second apart, in processing order, none a
duplicate), incrementing by one second and re-running the whole check
whenever different content occupies the candidate, and terminating at the
first free second (the recursion budget `fuel` only needs to cover the burst
length).  For video assets the `Converted`-comment match of
`_media_file_matches` can instead stop the chain early (see the
counterexample). -/
theorem c3_amended_burst_placement (dirOf : Nat → String) (extLower : String)
    (d fuel : Nat) (cs : List Content)
    (hdist : cs.Pairwise (fun a b => a.bytes ≠ b.bytes))
    (hfuel : cs.length ≤ fuel) :
    (placeBurst dirOf false extLower d fuel cs []).fst
      = (List.range cs.length).map
          (fun k => some ⟨mkDest dirOf extLower (d + k), d + k, false⟩) := by
  have hocc : FsOcc dirOf extLower d [] [] := by
    intro i
    simp [fsGet]
  have h := place_burst_occ dirOf extLower d fuel cs [] [] hocc hdist
    (by intro c2 _ o ho; simp at ho) (by simpa using hfuel)
  rw [h]
  apply List.map_congr_left
  intro k _
  simp

/-- Witness for C3 (amended): three distinct same-second images land at
seconds 50, 51 and 52. -/
theorem c3_amended_burst_placement_witness :
    (placeBurst (fun _ => "d") false ".jpg" 50 3
        [⟨1, 1, none⟩, ⟨2, 2, none⟩, ⟨3, 3, none⟩] []).fst
      = [some ⟨⟨"d", 50, ".jpg"⟩, 50, false⟩,
         some ⟨⟨"d", 51, ".jpg"⟩, 51, false⟩,
         some ⟨⟨"d", 52, ".jpg"⟩, 52, false⟩] := by
  have h := c3_amended_burst_placement (fun _ => "d") ".jpg" 50 3
    [⟨1, 1, none⟩, ⟨2, 2, none⟩, ⟨3, 3, none⟩] (by decide) (by decide)
  simpa [mkDest, pathExtOf, vidConvertExts, imgChangeExts, List.range_succ] using h

/-! ### C4: duplicate-in-place at the destination -/

/-- C4 counterexample: the collision check at an occupied destination
compares RAW FILE md5 digests (`_md5`), not the metadata-independent content
hash: a source file with pixel content identical to the occupying file (equal
`pixels`, i.e. equal `_get_image_hash`) but different EXIF payload (different
`bytes`) is NOT reported duplicate-in-place — it is retried and placed at
`+1s`, refuting the claim. -/
theorem c4_counterexample :
    getNewFileinfo (fun _ => "d") false ⟨6, 9, none⟩ ".jpg"
        [(.dst ⟨"d", 100, ".jpg"⟩, ⟨5, 9, none⟩)] 100 3
      = some ⟨⟨"d", 101, ".jpg"⟩, 101, false⟩ := by
  decide

/-- C4 (amended): the duplicate-in-place check compares whole-file md5
digests.  For every source asset whose computed destination is occupied by a
file with EQUAL RAW BYTES, `_get_new_fileinfo` reports a duplicate-in-place
at that same second (no one-second retry), and the `run` step performs no
copy: the filesystem is unchanged, no hash record is inserted, the duplicate
counter is incremented and the source is queued for cleanup.  Two files with
byte-identical pixel content but DIFFERENT EXIF tags have different raw
bytes and are instead retried at `+1s` (see the counterexample). -/
theorem c4_amended_duplicate_in_place (dirOf : Nat → String) (fuel : Nat)
    (copyOk : Bool) (srcName : String) (srcC occC : Content)
    (extLower : String) (st : RunState) (d : Nat)
    (hocc : fsGet st.fs (.dst (mkDest dirOf extLower d)) = some occC)
    (heq : srcC.bytes = occC.bytes)
    (hdb : dbHasHash st.db (imageHashOf srcC) = false) :
    getNewFileinfo dirOf false srcC extLower st.fs d (fuel + 1)
      = some ⟨mkDest dirOf extLower d, d, true⟩ ∧
    processImageFile dirOf (fuel + 1) copyOk st srcName srcC extLower d
      = { st with
          res := { st.res with duplicate := st.res.duplicate + 1 }
          cleanupFiles := st.cleanupFiles ++ [.src srcName] } := by
  have hmatch : mediaFileMatches false srcC occC = true := by
    simp [mediaFileMatches, heq]
  have hinfo : getNewFileinfo dirOf false srcC extLower st.fs d (fuel + 1)
      = some ⟨mkDest dirOf extLower d, d, true⟩ := by
    simp [getNewFileinfo, hocc, hmatch]
  refine ⟨hinfo, ?_⟩
  simp [processImageFile, hdb, hinfo]

/-- Witness for C4 (amended): a destination occupied by a byte-identical
file yields a duplicate-in-place and an unchanged filesystem. -/
theorem c4_amended_duplicate_in_place_witness :
    getNewFileinfo (fun _ => "d") false ⟨5, 9, none⟩ ".jpg"
        [(.dst ⟨"d", 100, ".jpg"⟩, ⟨5, 9, none⟩)] 100 3
      = some ⟨⟨"d", 100, ".jpg"⟩, 100, true⟩ ∧
    processImageFile (fun _ => "d") 3 true
        ⟨[(.dst ⟨"d", 100, ".jpg"⟩, ⟨5, 9, none⟩)], [], ⟨0, 0, 0, 0⟩, []⟩
        "a.jpg" ⟨5, 9, none⟩ ".jpg" 100
      = ⟨[(.dst ⟨"d", 100, ".jpg"⟩, ⟨5, 9, none⟩)], [], ⟨0, 1, 0, 0⟩,
         [.src "a.jpg"]⟩ := by
  have h := c4_amended_duplicate_in_place (fun _ => "d") 2 true "a.jpg"
    ⟨5, 9, none⟩ ⟨5, 9, none⟩ ".jpg"
    ⟨[(.dst ⟨"d", 100, ".jpg"⟩, ⟨5, 9, none⟩)], [], ⟨0, 0, 0, 0⟩, []⟩ 100
    (by decide) (by decide) (by decide)
  refine ⟨?_, ?_⟩
  · have h1 := h.1
    simpa [mkDest, pathExtOf, vidConvertExts, imgChangeExts] using h1
  · have h2 := h.2
    simpa using h2

/-! ### C5: what the hash store records -/

/-- C5 (code evaluation): after a successful placement of source `a.jpg` at
the destination encoded for second 100, the hash record inserted by `run`
via `_insert_image_hash(media_file)` is keyed by the SOURCE path `a.jpg` and
not by the destination path the file was copied to; and with a failing copy
no record is inserted at all (only the failed counter moves). -/
theorem c5_code_evaluation :
    processImageFile (fun _ => "d") 3 true ⟨[], [], ⟨0, 0, 0, 0⟩, []⟩
        "a.jpg" ⟨1, 7, none⟩ ".jpg" 100
      = ⟨[(.dst ⟨"d", 100, ".jpg"⟩, ⟨1, 7, none⟩)],
         [(.src "a.jpg", 7)], ⟨1, 0, 0, 0⟩, [.src "a.jpg"]⟩ ∧
    (MPath.src "a.jpg") ≠ (MPath.dst ⟨"d", 100, ".jpg"⟩) ∧
    processImageFile (fun _ => "d") 3 false ⟨[], [], ⟨0, 0, 0, 0⟩, []⟩
        "a.jpg" ⟨1, 7, none⟩ ".jpg" 100
      = ⟨[], [], ⟨0, 0, 1, 0⟩, []⟩ := by
  refine ⟨by decide, by decide, by decide⟩

/-! ### C9: the cleanup loop -/

/-- C9 counterexample: deleting a missing file during the cleanup loop is
NOT tolerated: `os.remove` raises `FileNotFoundError` (after the deleted
counter was already incremented) and nothing catches it, so the run aborts,
refuting the claim that missing files are tolerated silently. -/
theorem c9_counterexample :
    cleanupPhase [] [MPath.src "gone.jpg"] 0
      = .error (MPath.src "gone.jpg", 1) := by
  rfl

/-- C9 (amended): with cleanup enabled, every file of the accumulated
cleanup set that exists is deleted and each deletion is counted; but a
missing file makes the loop raise an uncaught `FileNotFoundError` (with the
deletion already counted) instead of being tolerated silently. -/
theorem c9_amended_cleanup (fs files : List MPath) (n : Nat)
    (hfs : fs.Nodup) (hsub : ∀ f ∈ files, f ∈ fs) (hnd : files.Nodup) :
    (∃ fs2, cleanupPhase fs files n = .ok (fs2, n + files.length) ∧
      (∀ q ∈ fs2, q ∈ fs) ∧ ∀ f ∈ files, f ∉ fs2) ∧
    (∀ (g : MPath) (rest : List MPath) (m : Nat) (fs3 : List MPath),
      g ∉ fs3 → cleanupPhase fs3 (g :: rest) m = .error (g, m + 1)) := by
  constructor
  · induction files generalizing fs n with
    | nil =>
      exact ⟨fs, rfl, fun q hq => hq, by simp⟩
    | cons f rest ih =>
      have hf : f ∈ fs := hsub f (List.mem_cons_self f rest)
      have hnd2 := List.pairwise_cons.mp hnd
      have hsub2 : ∀ g ∈ rest, g ∈ fs.erase f := by
        intro g hg
        have hgf : g ≠ f := fun hh => (hnd2.1 g hg) hh.symm
        exact (List.Nodup.mem_erase_iff hfs).mpr ⟨hgf, hsub g (List.mem_cons_of_mem f hg)⟩
      obtain ⟨fs2, heq, hsubfs, hnotin⟩ :=
        ih (fs.erase f) (n + 1) (List.Nodup.erase f hfs) hsub2 hnd2.2
      refine ⟨fs2, ?_, ?_, ?_⟩
      · rw [cleanupPhase, if_pos hf, heq, List.length_cons]
        have harr : n + 1 + rest.length = n + (rest.length + 1) := by omega
        rw [harr]
      · intro q hq
        exact List.mem_of_mem_erase (hsubfs q hq)
      · intro g hg
        rcases List.mem_cons.mp hg with hgf | hgr
        · rw [hgf]
          intro hcon
          have := hsubfs f hcon
          exact ((List.Nodup.mem_erase_iff hfs).mp this).1 rfl
        · exact hnotin g hgr
  · intro g rest m fs3 hg
    rw [cleanupPhase, if_neg hg]

/-- Witness for C9 (amended) at concrete inputs: cleaning up one existing
file deletes it and counts one deletion. -/
theorem c9_amended_cleanup_witness :
    ∃ fs2, cleanupPhase [MPath.src "a.jpg", MPath.src "b.jpg"]
        [MPath.src "a.jpg"] 0 = .ok (fs2, 0 + 1) ∧
      (∀ q ∈ fs2, q ∈ [MPath.src "a.jpg", MPath.src "b.jpg"]) ∧
      ∀ f ∈ [MPath.src "a.jpg"], f ∉ fs2 := by
  have h := (c9_amended_cleanup [MPath.src "a.jpg", MPath.src "b.jpg"]
    [MPath.src "a.jpg"] 0 (by decide) (by decide) (by decide)).1
  simpa using h

/-! ## File discovery: `OrganizePictures._get_files` (__init__.py lines
277-292) -/

/-- `os.path.splitext(os.path.basename(file))[1]`: the extension (with its
dot, original case) of the basename, where leading dots of the basename never
start an extension. -/
def extOf (file : String) : String :=
  let base := (file.toList.reverse.takeWhile (fun c => c ≠ '/')).reverse
  let lead := base.takeWhile (fun c => c = '.')
  let rest := base.drop lead.length
  if rest.any (fun c => c = '.') then
    String.mk ('.' :: (rest.reverse.takeWhile (fun c => c ≠ '.')).reverse)
  else String.mk []

/-- Python `str.lower()` (ascii case folding suffices for extensions). -/
def lowerStr (s : String) : String :=
  String.mk (s.toList.map Char.toLower)

/-- A validated `media_type` filter value. -/
inductive MediaKind
  | image | video
  deriving DecidableEq, Repr

def mediaTypeExts : MediaKind → List String
  | .image => imageExts
  | .video => videoExts

/-- The per-file filter of `_get_files`: the lowercased extension must be in
the configured allowlist and, when a media-type filter is set, also in that
media type's extension set. -/
def keepFile (exts : List String) (mt : Option MediaKind) (p : String) : Bool :=
  let el := lowerStr (extOf p)
  decide (el ∈ exts) &&
    (match mt with
     | none => true
     | some m => decide (el ∈ mediaTypeExts m))

/-- A directory tree: regular files (with full path) and subdirectories with
their `glob`-order children. -/
inductive FsEntry
  | file (path : String)
  | dir (path : String) (children : List FsEntry)
  deriving Repr

/-- Boolean lexicographic order on path strings. -/
def stringLe (a b : String) : Bool := decide (a ≤ b)

/-- The body of `_get_files` over the children of one directory: regular
files are kept when the filter accepts them; a subdirectory contributes its
own (recursively sorted) result via `files += self._get_files(file)`. -/
def walkFiles (exts : List String) (mt : Option MediaKind) :
    List FsEntry → List String
  | [] => []
  | .file p :: rest =>
    (if keepFile exts mt p then [p] else []) ++ walkFiles exts mt rest
  | .dir _ sub :: rest =>
    (walkFiles exts mt sub).mergeSort stringLe ++ walkFiles exts mt rest

/-- `_get_files`: walk the children, then `return sorted(files)`. -/
def getFiles (exts : List String) (mt : Option MediaKind)
    (children : List FsEntry) : List String :=
  (walkFiles exts mt children).mergeSort stringLe

/-- All regular-file paths of a tree, in tree order. -/
def allPaths : List FsEntry → List String
  | [] => []
  | .file p :: rest => p :: allPaths rest
  | .dir _ sub :: rest => allPaths sub ++ allPaths rest

theorem walkFiles_perm (exts : List String) (mt : Option MediaKind) :
    (es : List FsEntry) →
      (walkFiles exts mt es).Perm ((allPaths es).filter (keepFile exts mt))
  | [] => by simp [walkFiles, allPaths]
  | .file p :: rest => by
    have ih := walkFiles_perm exts mt rest
    simp only [walkFiles, allPaths, List.filter_cons]
    by_cases hk : keepFile exts mt p
    · simp only [hk, if_true]
      exact ih.cons p
    · simp only [hk, Bool.false_eq_true, if_false, List.nil_append]
      exact ih
  | .dir q sub :: rest => by
    have ih1 := walkFiles_perm exts mt sub
    have ih2 := walkFiles_perm exts mt rest
    simp only [walkFiles, allPaths, List.filter_append]
    exact ((List.mergeSort_perm _ _).trans ih1).append ih2

/-- C10: file discovery is deterministic and filtered — `_get_files` returns
exactly the regular files of the tree (subdirectories traversed recursively)
whose lowercased extension is in the configured allowlist and, when a
media-type filter is set, also in that media type's extension set, as a
permutation of the filtered tree listing, in lexicographically sorted path
order (which fixes the processing order of `run` and hence which same-second
asset receives the earliest destination timestamp). -/
theorem c10_file_discovery (exts : List String) (mt : Option MediaKind)
    (es : List FsEntry) :
    List.Sorted (fun a b : String => a ≤ b) (getFiles exts mt es) ∧
    (getFiles exts mt es).Perm ((allPaths es).filter (keepFile exts mt)) := by
  constructor
  · have htrans : ∀ a b c : String, stringLe a b = true → stringLe b c = true →
        stringLe a c = true := by
      intro a b c hab hbc
      simp only [stringLe, decide_eq_true_eq] at hab hbc ⊢
      exact le_trans hab hbc
    have htotal : ∀ a b : String, (stringLe a b || stringLe b a) = true := by
      intro a b
      simp only [stringLe, Bool.or_eq_true, decide_eq_true_eq]
      exact le_total a b
    have h := List.sorted_mergeSort htrans htotal (walkFiles exts mt es)
    exact h.imp (fun hh => of_decide_eq_true hh)
  · exact (List.mergeSort_perm _ _).trans (walkFiles_perm exts mt es)

end OrgPics
